import Mathlib

/-!
Verification of the griffin kernel's memory-management core.

This file gives a shallow embedding, in Lean, of the physical-frame
allocator (`src/arch/x86_64/mm/pmm.rs`), the virtual-memory manager and
page-fault handler (`src/mm/vmm.rs`), and the slab allocator
(`src/mm/slab.rs`), and proves or refutes the specification's claims
about them.

Modelling conventions:
* machine integers (`u64`/`usize`) are modelled as `Nat`; all the
  arithmetic that the kernel performs on these values stays well below
  `2^64`, and where the source relies on release-mode wrapping
  (`i - pages + 1` in `Pmm::alloc`) the model uses the mathematically
  equal non-wrapping form and the equality is noted at the definition;
* the frame bitmap is a `List Bool`, bit `i` of the byte array being
  element `i` of the list (the byte packing of `utils/bitmap.rs` is
  bijective and index-preserving, so nothing is lost);
* the four-level page table, which the source walks through raw
  physical pointers, is modelled as a tree: each table is a map from
  entry index to its raw 64-bit entry value together with a map from
  entry index to the child table the entry points to.  Writes through
  `get_next_level` become functional updates;
* physical byte memory is a function `Nat → Nat` so that the zero-fill
  performed by `Pmm::calloc` is observable;
* fallible paths (`expect`, `todo!`, dereferencing a null `next`
  pointer) are modelled with `Option`, `none` meaning the kernel
  panics or hits undefined behaviour.
-/

namespace Griffin

/-- `pmm::PAGE_SIZE` -/
def PAGE_SIZE : Nat := 4096

/-- `pmm::PHYS_BASE`, base of the higher-half physical-memory alias. -/
def PHYS_BASE : Nat := 0xffff800000000000

namespace PageFlags

/-- bit 0 of a page-table entry: the page is present. -/
def PRESENT : Nat := 1 <<< 0
/-- bit 1: writable. -/
def WRITABLE : Nat := 1 <<< 1
/-- bit 2: user-accessible. -/
def USERMODE : Nat := 1 <<< 2
/-- bit 3: write-through. -/
def WT : Nat := 1 <<< 3
/-- bit 4: uncacheable. -/
def UNCACHEABLE : Nat := 1 <<< 4
/-- bit 9, architecturally ignored, repurposed by the vmm: lazily backed. -/
def MMAPED : Nat := 1 <<< 9
/-- bit 63: no-execute. -/
def NX : Nat := 1 <<< 63

/-- The union of every flag bit the vmm defines (bits 0-4, 9, 63). -/
def definedMask : Nat :=
  PRESENT ||| WRITABLE ||| USERMODE ||| WT ||| UNCACHEABLE ||| MMAPED ||| NX

end PageFlags

namespace MapProt

def NONE : Nat := 0x0
def READ : Nat := 0x1
def WRITE : Nat := 0x2
def EXEC : Nat := 0x4

end MapProt

namespace MapFlags

def SHARED : Nat := 0x0001
def PRIVATE : Nat := 0x0002
def FIXED : Nat := 0x0010
def ANONYMOUS : Nat := 0x1000

end MapFlags

/-- `impl From<MapProt> for PageFlags` (`vmm.rs:43-65`).

`bitflags`' `contains(other)` is `self.bits & other.bits == other.bits`;
the branches are transcribed verbatim, including the early return on
`prot.contains(MapProt::NONE)`. -/
def pageFlagsFromMapProt (prot : Nat) : Nat :=
  let page_flags := PageFlags.NX
  if prot &&& MapProt.NONE = MapProt.NONE then
    page_flags
  else
    let page_flags :=
      if prot &&& MapProt.WRITE = MapProt.WRITE then
        page_flags ||| PageFlags.WRITABLE
      else page_flags
    let page_flags :=
      if prot &&& MapProt.READ = MapProt.READ then
        page_flags ||| PageFlags.USERMODE
      else page_flags
    let page_flags :=
      if prot &&& MapProt.EXEC = MapProt.EXEC then
        page_flags &&& (2 ^ 64 - 1 - PageFlags.NX)
      else page_flags
    page_flags

/-- `PhysAddr::remove_flags` (`pmm.rs:44-47`): keep bits 12-51 only. -/
def removeFlags (a : Nat) : Nat := a &&& 0x000ffffffffff000

/-- `PhysAddr::higher_half` (`pmm.rs:23-25`). -/
def higherHalf (a : Nat) : Nat := a ||| PHYS_BASE

/-- `PhysAddr::lower_half` (`pmm.rs:27-29`): `addr & !PHYS_BASE`
(the complement taken in 64 bits). -/
def lowerHalf (a : Nat) : Nat := a &&& (2 ^ 64 - 1 - PHYS_BASE)

/-- The boot address translation the kernel relies on when it
dereferences raw pointers: virtual addresses at or above `PHYS_BASE`
are the higher-half alias of physical memory, lower ones are the
boot-time identity mapping. -/
def virtToPhys (v : Nat) : Nat := if PHYS_BASE ≤ v then v - PHYS_BASE else v

/-- `VirtAddr::pml4` (`vmm.rs:76-78`). -/
def VirtAddr.pml4 (v : Nat) : Nat := (v >>> 39) &&& 0x1ff

/-- `VirtAddr::pdp` (`vmm.rs:80-82`). -/
def VirtAddr.pdp (v : Nat) : Nat := (v >>> 30) &&& 0x1ff

/-- `VirtAddr.pd` (`vmm.rs:84-86`). -/
def VirtAddr.pd (v : Nat) : Nat := (v >>> 21) &&& 0x1ff

/-- `VirtAddr.pt` (`vmm.rs:88-90`). -/
def VirtAddr.pt (v : Nat) : Nat := (v >>> 12) &&& 0x1ff

/-! ## Physical frame allocator (`pmm.rs`) -/

namespace Pmm

/-- Clear bits `page`, `page+1`, …, `page+pages-1` of the bitmap —
the `for p in page..page + pages { bitmap.clear(p) }` loop of
`Pmm::alloc` (`pmm.rs:116-118`). -/
def clearRange (bits : List Bool) (page pages : Nat) : List Bool :=
  (List.range pages).foldl (fun b j => b.set (page + j) false) bits

/-- The scan loop of `Pmm::alloc` (`pmm.rs:109-127`): `i` is the loop
index, `count` the length of the current run of set (= free) bits.
When `count` reaches `pages` the run `[i+1-pages, i]` is cleared and
the base address returned; `i + 1 - pages` equals the source's
release-mode `i - pages + 1` because `count ≤ i + 1`.  The loop runs
while `i < bits.length`; `fuel` counts the remaining iterations
(`alloc` starts it at `bits.length`, so fuel exhaustion is exactly the
loop bound), keeping the recursion structural. -/
def allocLoop (bits : List Bool) (pages : Nat) : Nat → Nat → Nat → Option (Nat × List Bool)
  | 0, _, _ => none
  | fuel + 1, i, count =>
    if bits.getD i false then
      if count + 1 = pages then
        some ((i + 1 - pages) * PAGE_SIZE, clearRange bits (i + 1 - pages) pages)
      else
        allocLoop bits pages fuel (i + 1) (count + 1)
    else
      allocLoop bits pages fuel (i + 1) 0

/-- `Pmm::alloc` (`pmm.rs:105-130`): first-fit scan over all
`size * 8` bits (the bitmap list carries exactly those bits). -/
def alloc (bits : List Bool) (pages : Nat) : Option (Nat × List Bool) :=
  allocLoop bits pages bits.length 0 0

/-- Physical memory state the allocator acts on: the frame bitmap plus
byte-addressed physical memory (needed to observe `calloc`'s
zero-fill). -/
structure State where
  bits : List Bool
  bytes : Nat → Nat

/-- `write_bytes(v, len)` at virtual pointer `p`, landing in physical
memory through `virtToPhys`. -/
def writeBytes (mem : Nat → Nat) (p len v : Nat) : Nat → Nat :=
  fun x => if virtToPhys p ≤ x ∧ x < virtToPhys p + len then v else mem x

/-- The pointer `Pmm::calloc` (`pmm.rs:135`) writes its zeros through:
`mem.as_mut_ptr::<u8>()`, i.e. the returned physical address itself
(no `higher_half`). -/
def callocPtr (addr : Nat) : Nat := addr

/-- The pointer the spec says the zero-fill goes through: the
kernel-mapped higher-half alias of the returned frames.
Modelled from the spec: "zero-fills the returned frames via their
kernel-mapped alias". -/
def specCallocPtr (addr : Nat) : Nat := higherHalf addr

/-- `Pmm::calloc` (`pmm.rs:132-142`): `alloc`, then
`write_bytes(0, pages * PAGE_SIZE)` through `callocPtr`. -/
def calloc (s : State) (pages : Nat) : Option (Nat × State) :=
  match alloc s.bits pages with
  | some (a, bits') =>
      some (a, ⟨bits', writeBytes s.bytes (callocPtr a) (pages * PAGE_SIZE) 0⟩)
  | none => none

/-- `Pmm::free` (`pmm.rs:144-151`): set the bits of the released
frames back to free. -/
def free (bits : List Bool) (ptr pages : Nat) : List Bool :=
  let page := lowerHalf ptr / PAGE_SIZE
  (List.range pages).foldl (fun b j => b.set (page + j) true) bits

end Pmm

/-! ## Page tables and the virtual memory manager (`vmm.rs`) -/

/-- One hardware page table: entry index (0-511) to raw 64-bit entry
value, and entry index to the next-level table the entry points at.
The source walks these through raw physical pointers; the tree makes
the pointer graph explicit. -/
inductive PTable where
  | mk (entries : Nat → Nat) (children : Nat → Option PTable)

/-- Raw entry value at index `i`. -/
def PTable.entries : PTable → Nat → Nat
  | .mk e _ => e

/-- Child table pointed to by entry `i`. -/
def PTable.children : PTable → Nat → Option PTable
  | .mk _ c => c

/-- A table whose 4096 bytes have just been zero-filled. -/
def PTable.empty : PTable := .mk (fun _ => 0) (fun _ => none)

/-- Overwrite the raw entry at index `i`. -/
def PTable.setEntry (t : PTable) (i v : Nat) : PTable :=
  .mk (Function.update t.entries i v) t.children

/-- Point entry `i` at child table `c` (the entry value is written
separately, as in the source). -/
def PTable.setChild (t : PTable) (i : Nat) (c : PTable) : PTable :=
  .mk t.entries (Function.update t.children i (some c))

/-- The memory-management machine state a `VirtualMemManager` acts on:
the physical allocator plus the page-table tree hanging off
`self.pagemap`. -/
structure Machine where
  pmm : Pmm.State
  root : PTable

/-- `VirtualMemManager::get_next_level` (`vmm.rs:283-301`): if the
entry at `index` has the present bit clear, `calloc` a zeroed table,
write `addr | (PRESENT | WRITABLE | USERMODE)` into the entry and
descend into the new table; otherwise descend into the table the
(flag-masked) entry points at.  `none` models the `expect` panic on
allocation failure, and also the (never exercised) case of a present
entry with no recorded child.  Returns the new pmm state, the updated
current table and the next-level table. -/
def get_next_level (p : Pmm.State) (t : PTable) (index : Nat) :
    Option (Pmm.State × PTable × PTable) :=
  if t.entries index &&& 1 = 0 then
    match Pmm.calloc p 1 with
    | none => none
    | some (entry, p') =>
        let flags := PageFlags.PRESENT ||| PageFlags.WRITABLE ||| PageFlags.USERMODE
        some (p', (t.setEntry index (entry ||| flags)).setChild index .empty, .empty)
  else
    match t.children index with
    | none => none
    | some c => some (p, t, c)

/-- `VirtualMemManager::map_page` (`vmm.rs:303-326`): walk (and create)
the three upper levels, then write `phys_addr | flags` into the leaf
entry.  (`invlpg` is a translation-cache flush with no effect on the
state modelled here.)  The updated tables are hooked back onto their
parents, which in memory happens through the unchanged child
pointers. -/
def map_page (m : Machine) (virtual_addr phys_addr flags : Nat) : Option Machine :=
  match get_next_level m.pmm m.root (VirtAddr.pml4 virtual_addr) with
  | none => none
  | some (p1, root', pdp) =>
    match get_next_level p1 pdp (VirtAddr.pdp virtual_addr) with
    | none => none
    | some (p2, pdp', pd) =>
      match get_next_level p2 pd (VirtAddr.pd virtual_addr) with
      | none => none
      | some (p3, pd', page_table) =>
        let pt' := page_table.setEntry (VirtAddr.pt virtual_addr) (phys_addr ||| flags)
        some ⟨p3, root'.setChild (VirtAddr.pml4 virtual_addr)
                ((pdp'.setChild (VirtAddr.pdp virtual_addr)
                  ((pd'.setChild (VirtAddr.pd virtual_addr) pt'))))⟩

/-- `VirtualMemManager::get_mapping` (`vmm.rs:328-339`): the same walk
as `map_page` — `get_next_level` included, so absent intermediate
levels are allocated — returning the raw leaf entry value. -/
def get_mapping (m : Machine) (virtual_addr : Nat) : Option (Nat × Machine) :=
  match get_next_level m.pmm m.root (VirtAddr.pml4 virtual_addr) with
  | none => none
  | some (p1, root', pdp) =>
    match get_next_level p1 pdp (VirtAddr.pdp virtual_addr) with
    | none => none
    | some (p2, pdp', pd) =>
      match get_next_level p2 pd (VirtAddr.pd virtual_addr) with
      | none => none
      | some (p3, pd', page_table) =>
        some (page_table.entries (VirtAddr.pt virtual_addr),
          ⟨p3, root'.setChild (VirtAddr.pml4 virtual_addr)
                ((pdp'.setChild (VirtAddr.pdp virtual_addr)
                  ((pd'.setChild (VirtAddr.pd virtual_addr) page_table))))⟩)

/-- All three upper levels on `virtual_addr`'s path are present (entry
bit 0 set) and point at recorded child tables.  This is the situation
in which `get_next_level` takes its read-only branch at every level. -/
def WalkPresent (m : Machine) (virtual_addr : Nat) : Prop :=
  ∃ pdp pd pt,
    m.root.entries (VirtAddr.pml4 virtual_addr) &&& 1 ≠ 0 ∧
    m.root.children (VirtAddr.pml4 virtual_addr) = some pdp ∧
    pdp.entries (VirtAddr.pdp virtual_addr) &&& 1 ≠ 0 ∧
    pdp.children (VirtAddr.pdp virtual_addr) = some pd ∧
    pd.entries (VirtAddr.pd virtual_addr) &&& 1 ≠ 0 ∧
    pd.children (VirtAddr.pd virtual_addr) = some pt

/-- Pure read of the leaf entry on `virtual_addr`'s path, defined only
when the walk needs no allocation. -/
def leafEntry (m : Machine) (virtual_addr : Nat) : Option Nat :=
  match m.root.children (VirtAddr.pml4 virtual_addr) with
  | none => none
  | some pdp =>
    match pdp.children (VirtAddr.pdp virtual_addr) with
    | none => none
    | some pd =>
      match pd.children (VirtAddr.pd virtual_addr) with
      | none => none
      | some pt => some (pt.entries (VirtAddr.pt virtual_addr))

/-- `VirtMemoryRange` (`vmm.rs:139-146`), with the file description
reduced to the file identity the fault path passes to `vfs::read`. -/
structure VirtMemoryRange where
  base : Nat
  length : Nat
  prot : Nat
  flags : Nat
  offset : Nat
  fd : Option Nat
deriving DecidableEq

/-- `VirtMemoryRange::start` (`vmm.rs:167-169`). -/
def VirtMemoryRange.start (r : VirtMemoryRange) : Nat := r.base

/-- `VirtMemoryRange::end` (`vmm.rs:171-173`), renamed because `end`
is reserved. -/
def VirtMemoryRange.stop (r : VirtMemoryRange) : Nat := r.base + r.length

/-- `VirtMemoryRange::is_anon_map` (`vmm.rs:175-177`). -/
def VirtMemoryRange.is_anon_map (r : VirtMemoryRange) : Bool :=
  r.flags &&& MapFlags.ANONYMOUS = MapFlags.ANONYMOUS

/-- `VirtMemoryRange::is_private_map` (`vmm.rs:179-181`). -/
def VirtMemoryRange.is_private_map (r : VirtMemoryRange) : Bool :=
  r.flags &&& MapFlags.PRIVATE = MapFlags.PRIVATE

/-- `VirtualMemManager::get_range` (`vmm.rs:269-277`): first range with
`address > entry.start() && address < entry.end()` — both comparisons
strict. -/
def get_range (ranges : List VirtMemoryRange) (address : Nat) : Option VirtMemoryRange :=
  match ranges with
  | [] => none
  | entry :: rest =>
      if entry.start < address ∧ address < entry.stop then some entry
      else get_range rest address

/-- A full address space: machine state plus the mmap range list of
`VirtualMemManager` (`vmm.rs:188-191`). -/
structure Vmm where
  mach : Machine
  ranges : List VirtMemoryRange

/-- The page starts `start, start+4096, …` strictly below `start+len`:
the `(new_range_start..new_range_end).step_by(PAGE_SIZE)` loop of
`mmap` (`vmm.rs:254`). -/
def pageStarts (start len : Nat) : List Nat :=
  (List.range ((len + (PAGE_SIZE - 1)) / PAGE_SIZE)).map (fun i => start + PAGE_SIZE * i)

/-- `VirtualMemManager::mmap` (`vmm.rs:217-267`) for the case an
address is supplied (the `get_free_range` placeholder is `todo!()` in
the source, modelled as `none`): maps every page of the range to
physical address 0 with `PageFlags::from(prot) | MMAPED`, then appends
the range record.  The overlap rescan of the non-`FIXED` path lands in
`get_free_range`, hence `none`, whenever the hint overlaps an existing
range. -/
def mmap (s : Vmm) (address : Option Nat) (length prot flags : Nat)
    (fd : Option Nat) (offset : Nat) : Option Vmm :=
  match address with
  | none =>
      if flags &&& MapFlags.FIXED = MapFlags.FIXED then some s -- TODO'd early return
      else none -- get_free_range is todo!()
  | some address_value =>
      let overlaps := s.ranges.any (fun entry =>
        (entry.start < address_value ∧ address_value < entry.stop) ∨
        (entry.start < address_value + length ∧ address_value + length < entry.stop))
      if flags &&& MapFlags.FIXED ≠ MapFlags.FIXED ∧ overlaps then none -- get_free_range
      else
        let step (acc : Option Machine) (page : Nat) : Option Machine :=
          match acc with
          | none => none
          | some m => map_page m page 0 (pageFlagsFromMapProt prot ||| PageFlags.MMAPED)
        match (pageStarts address_value length).foldl step (some s.mach) with
        | none => none
        | some m' =>
            some ⟨m', s.ranges ++ [⟨address_value, length, prot, flags, offset, fd⟩]⟩

/-- Observable outcome of one invocation of the page-fault handler
(`vmm.rs:377-463`). -/
inductive PF where
  /-- one of the handler's `expect`s fired (or `get_free_range`-style
  unreachable code): the kernel panics. -/
  | panicked
  /-- the anonymous demand-paging path ran to completion and the
  handler returned normally. -/
  | anonMapped (s : Vmm)
  /-- the private file-backed path ran to completion, issuing exactly
  one `vfs::read` of `cnt` bytes at file offset `fileOff`. -/
  | privMapped (cnt fileOff : Nat) (s : Vmm)
  /-- a lazily-backed page of an unhandled range kind: the handler
  prints "crap" and returns without mapping anything. -/
  | crap (s : Vmm)
  /-- not lazily backed: genuine fault, diagnostics printed, processor
  halted. -/
  | fatal (s : Vmm)

/-- The page-fault handler (`vmm.rs:377-463`) for a fault at `cr2` in
address space `s`.  Note that `get_mapping` may itself allocate
intermediate tables before the fault is classified. -/
def page_fault (s : Vmm) (cr2 : Nat) : PF :=
  match get_mapping s.mach cr2 with
  | none => .panicked
  | some (mapping, m1) =>
    if mapping &&& PageFlags.MMAPED ≠ 0 then
      match get_range s.ranges cr2 with
      | none => .panicked -- expect: mmaped page outside every range
      | some range =>
        if range.is_anon_map then
          match Pmm.calloc m1.pmm 1 with
          | none => .panicked
          | some (page, p2) =>
            match map_page ⟨p2, m1.root⟩ cr2 page
                (pageFlagsFromMapProt range.prot ||| PageFlags.PRESENT) with
            | none => .panicked
            | some m2 => .anonMapped ⟨m2, s.ranges⟩
        else if range.is_private_map then
          match Pmm.calloc m1.pmm 1 with
          | none => .panicked
          | some (page, p2) =>
            let pageHH := higherHalf page
            let this_page_number := cr2 / PAGE_SIZE - range.start / PAGE_SIZE
            let offset := this_page_number * PAGE_SIZE
            let cnt :=
              if (this_page_number + 1) * PAGE_SIZE ≤ range.length then PAGE_SIZE
              else range.length % PAGE_SIZE
            match range.fd with
            | none => .panicked -- expect: private mapping not backed by a file
            | some _ =>
              match map_page ⟨p2, m1.root⟩ cr2 (lowerHalf pageHH)
                  (pageFlagsFromMapProt range.prot) with
              | none => .panicked
              | some m2 => .privMapped cnt (offset + range.offset) ⟨m2, s.ranges⟩
        else .crap ⟨m1, s.ranges⟩
    else .fatal ⟨m1, s.ranges⟩

/-! ## Slab allocator (`slab.rs`) -/

/-- `slab::OBJS_PER_SLAB` (`slab.rs:12`). -/
def OBJS_PER_SLAB : Nat := 256

/-- One `Slab` (`slab.rs:96-103`): free-object counter, object size,
base of the object area, and its occupancy bitmap.  The source
allocates a whole page of bitmap; `Slab::alloc` only ever scans bits
`0..OBJS_PER_SLAB`, so the model carries exactly those bits. -/
structure Slab where
  free_objs : Nat
  object_size : Nat
  data : Nat
  bitmap : List Bool

/-- A slab as `Slab::new` (`slab.rs:106-131`) builds it: every object
free, bitmap freshly zero-filled (`Bitmap::new` backs it with
`calloc`ed frames). -/
def Slab.fresh (object_size data : Nat) : Slab :=
  ⟨OBJS_PER_SLAB, object_size, data, List.replicate OBJS_PER_SLAB false⟩

/-- Index (counting from `i`) of the first clear bit of the slab
bitmap: the `for i in 0..OBJS_PER_SLAB { if !bitmap.is_set(i) … }`
scan of `Slab::alloc` (`slab.rs:140-149`); the model's bitmap carries
exactly the `OBJS_PER_SLAB` bits the scan can reach, so walking the
list is walking the loop. -/
def findClear : List Bool → Nat → Option Nat
  | [], _ => none
  | b :: rest, i => if !b then some i else findClear rest (i + 1)

/-- `Slab::alloc` (`slab.rs:133-153`): return null if no object is
free; otherwise set the first clear bit among `0..OBJS_PER_SLAB`,
decrement the counter and return `data + i * object_size`.  `none` in
the first component is the returned null pointer. -/
def Slab.alloc (s : Slab) : Option Nat × Slab :=
  if s.free_objs = 0 then (none, s)
  else
    match findClear s.bitmap 0 with
    | some i =>
        (some (s.data + i * s.object_size),
         { s with bitmap := s.bitmap.set i true, free_objs := s.free_objs - 1 })
    | none => (none, s) -- "should never get here"

/-- `Slab::dealloc` (`slab.rs:155-161`): derive the bit from the
pointer, increment the counter, clear the bit. -/
def Slab.dealloc (s : Slab) (ptr : Nat) : Slab :=
  let bit := (ptr - s.data) / s.object_size
  { s with free_objs := s.free_objs + 1, bitmap := s.bitmap.set bit false }

/-- A `Cache` (`slab.rs:17-24`): its slab linked list in list order
(head = `self.slabs`), plus the slab counter.  (The name string and
`pages_per_slab` play no part in the claims under study.) -/
structure Cache where
  object_size : Nat
  slab_count : Nat
  slabs : List Slab

/-- The `while curr_slab.free_objs == 0 { curr_slab = &mut *curr_slab.next }`
walk of `Cache::alloc_obj` (`slab.rs:53-57`): index of the first slab
with a free object.  When every slab is full the walk follows the last
slab's null `next` pointer — modelled as `none` (undefined
behaviour/crash); the `if curr_slab.free_objs == 0` growth branch
after the loop is unreachable. -/
def slabWalk : List Slab → Option Nat
  | [] => none
  | sl :: rest => if sl.free_objs = 0 then (slabWalk rest).map (· + 1) else some 0

/-- `Cache::alloc_obj` (`slab.rs:52-69`): walk to the first non-full
slab and allocate from it.  Outer `none` models the null-pointer
dereference of the walk; the inner option is `Slab::alloc`'s possibly
null return. -/
def Cache.alloc_obj (c : Cache) : Option (Option Nat × Cache) :=
  match slabWalk c.slabs with
  | none => none
  | some j =>
    match c.slabs.get? j with
    | none => none
    | some sl =>
      let r := sl.alloc
      some (r.1, { c with slabs := c.slabs.set j r.2 })

/-- `n` consecutive `Cache::alloc_obj` calls with no intervening
frees, collecting the returned pointers; `none` as soon as one call
crashes or returns null. -/
def Cache.allocN (c : Cache) : Nat → Option (List Nat × Cache)
  | 0 => some ([], c)
  | n + 1 =>
    match c.alloc_obj with
    | none => none
    | some (none, _) => none
    | some (some p, c') =>
      match c'.allocN n with
      | none => none
      | some (ps, c'') => some (p :: ps, c'')

/-- States of one slab reachable from a fresh slab by `Slab::alloc`
and by `Slab::dealloc` of a currently-allocated object (the pointer
resolves to an in-range, currently-set bit). -/
inductive SlabReach : Slab → Prop where
  | fresh (object_size data : Nat) : SlabReach (Slab.fresh object_size data)
  | alloc {s : Slab} : SlabReach s → SlabReach (Slab.alloc s).2
  | dealloc {s : Slab} (ptr : Nat) : SlabReach s →
      (ptr - s.data) / s.object_size < OBJS_PER_SLAB →
      s.bitmap.getD ((ptr - s.data) / s.object_size) false = true →
      SlabReach (s.dealloc ptr)

/-! ## Concrete states used by witnesses and counterexamples -/

/-- A boot-fresh machine: 64 free frames, memory holding 37 everywhere
(so that zero-fills are observable), an empty top-level table. -/
def initMachine : Machine := ⟨⟨List.replicate 64 true, fun _ => 37⟩, PTable.empty⟩

/-- An address space over `initMachine` with no ranges yet. -/
def initVmm : Vmm := ⟨initMachine, []⟩

/-- `mmap(V=0x1000, len=0x1000, prot=WRITE, MAP_ANONYMOUS|MAP_FIXED)`:
one anonymous lazily-backed page at `0x1000`. -/
def anonVmm : Option Vmm :=
  mmap initVmm (some 0x1000) 0x1000 MapProt.WRITE
    (MapFlags.ANONYMOUS ||| MapFlags.FIXED) none 0

/-- `mmap(V=0x1000, len=0x2000, prot=READ, MAP_PRIVATE|MAP_FIXED,
fd=7, offset=1024)`: a two-page private file-backed range. -/
def privVmm : Option Vmm :=
  mmap initVmm (some 0x1000) 0x2000 MapProt.READ
    (MapFlags.PRIVATE ||| MapFlags.FIXED) (some 7) 1024

/-- The address space `privVmm` holds (`mmap` succeeds on it). -/
def privVmmS : Vmm := privVmm.getD ⟨initMachine, []⟩

/-- A machine whose tables for virtual address `0x1000` are fully
present: pml4 slot 0 → pdp, pdp slot 0 → pd, pd slot 0 → a leaf table
whose entry 1 maps frame `0xabc000` with flags 3. -/
def presentMachine : Machine :=
  let pt : PTable := .mk (fun j => if j = 1 then 0xabc000 ||| 3 else 0) (fun _ => none)
  let pd : PTable := .mk (fun j => if j = 0 then 0x3000 ||| 7 else 0)
    (fun j => if j = 0 then some pt else none)
  let pdp : PTable := .mk (fun j => if j = 0 then 0x2000 ||| 7 else 0)
    (fun j => if j = 0 then some pd else none)
  let root : PTable := .mk (fun j => if j = 0 then 0x1000 ||| 7 else 0)
    (fun j => if j = 0 then some pdp else none)
  ⟨⟨List.replicate 64 true, fun _ => 37⟩, root⟩

/-- A cache as `Cache::new(8)` leaves it: one fresh slab of 8-byte
objects. -/
def freshCache : Cache := ⟨8, 1, [Slab.fresh 8 0x1000]⟩

/-! ## Claims -/

/-- Claim C10: for every `MapProt` value whatsoever, the conversion to
`PageFlags` returns exactly `NX` and nothing else, because the
`contains(MapProt::NONE)` early return (`NONE` being the empty flag
set, contained in everything) is taken for every input; in particular
the conversion never contributes `PRESENT`, `WRITABLE` or `USERMODE`,
and never clears `NX` for `EXEC`. -/
theorem map_prot_conversion_degenerate (prot : Nat) :
    pageFlagsFromMapProt prot = PageFlags.NX ∧
    pageFlagsFromMapProt prot &&&
      (PageFlags.PRESENT ||| PageFlags.WRITABLE ||| PageFlags.USERMODE) = 0 := by
  have h : pageFlagsFromMapProt prot = PageFlags.NX := by
    unfold pageFlagsFromMapProt MapProt.NONE
    simp
  exact ⟨h, by rw [h]; decide⟩

/-- Claim C9 (failing input): `get_range` uses
`address > entry.start()` — strict — so the very base address of a
range, which the claim (and the fault handler's own "should never
happen" expectation for lazily-backed pages) says is contained in
`[base, base+length)`, resolves to `None`, while `base + 1` resolves
to the range. -/
theorem get_range_excludes_base :
    get_range [⟨0x1000, 0x1000, 0, 0, 0, none⟩] 0x1000 = none ∧
    get_range [⟨0x1000, 0x1000, 0, 0, 0, none⟩] 0x1001 =
      some ⟨0x1000, 0x1000, 0, 0, 0, none⟩ := by
  decide

/-- Claim C4 (counterexample): `get_mapping` is not read-only — on a
machine with an empty top-level table it allocates three intermediate
tables through `get_next_level`, visibly clearing bits of the PMM
bitmap. -/
theorem get_mapping_allocates_counterexample :
    (get_mapping initMachine 0x1000).map (fun r => r.2.pmm.bits) ≠
      some initMachine.pmm.bits := by
  decide

/-- Claim C8 (counterexample): `Pmm::calloc` zero-fills through
`mem.as_mut_ptr::<u8>()` — the returned physical address used as an
identity-mapped pointer — not through the kernel's higher-half alias
of the frames, which for the frame the concrete allocation returns is
a different pointer. -/
theorem calloc_zero_ptr_counterexample :
    (Pmm.calloc initMachine.pmm 1).map Prod.fst = some 0 ∧
    Pmm.callocPtr 0 ≠ Pmm.specCallocPtr 0 := by
  refine ⟨by decide, by decide⟩

/-- Claim C1 (failing input): on the anonymous demand-paging path the
handler does allocate a zeroed frame (frame `0x3000` here) and install
it at the page-aligned fault address with `PRESENT` set and `MMAPED`
cleared — but the installed leaf carries `NX|PRESENT` only: the
range's requested `WRITE` protection is not reflected (`WRITABLE`
stays clear), because `PageFlags::from(MapProt)` degenerates to `NX`.
Moreover a fault at offset 0 into the range panics outright, because
`get_range` cannot resolve the range's own base address. -/
theorem anon_fault_installs_nx_only :
    (anonVmm.map fun s => match page_fault s (0x1000 + 100) with
      | .anonMapped s' => leafEntry s'.mach 0x1000
      | _ => none) = some (some (PageFlags.NX ||| 0x3000 ||| PageFlags.PRESENT)) ∧
    (PageFlags.NX ||| 0x3000 ||| PageFlags.PRESENT) &&& PageFlags.WRITABLE = 0 ∧
    (PageFlags.NX ||| 0x3000 ||| PageFlags.PRESENT) &&& PageFlags.MMAPED = 0 ∧
    (anonVmm.map fun s => match page_fault s 0x1000 with
      | .panicked => true
      | _ => false) = some true := by
  refine ⟨by decide, by decide, by decide, by decide⟩

set_option maxHeartbeats 2000000 in
set_option maxRecDepth 100000 in
/-- Claim C6 (failing input): 256 consecutive allocations from a fresh
cache succeed and return 256 distinct pointers, but the cache still
has exactly one slab, and the 257th allocation does not grow the
cache: the slab walk of `Cache::alloc_obj` runs off the null `next`
pointer of the single (now full) slab before the unreachable growth
branch could run — `alloc_obj` returns `none` (the modelled
null-pointer dereference) instead of a 257th pointer from a second
slab. -/
theorem cache_overflow_crashes :
    ((freshCache.allocN 256).map (fun r => (r.1.length, r.2.slab_count, r.2.alloc_obj.isSome))) =
      some (256, 1, false) ∧
    (((freshCache.allocN 256).map Prod.fst).getD []).Nodup := by
  constructor <;> decide

/-! ### Slab bitmap invariant (C7) -/

theorem count_false_set_true (l : List Bool) (i : Nat)
    (hlen : i < l.length) (h : l.getD i false = false) :
    (l.set i true).count false + 1 = l.count false := by
  induction l generalizing i with
  | nil => simp at hlen
  | cons b rest ih =>
    cases i with
    | zero =>
      simp only [List.getD_cons_zero] at h
      subst h
      simp [List.count_cons]
    | succ i =>
      simp only [List.getD_cons_succ] at h
      simp only [List.length_cons, Nat.succ_lt_succ_iff] at hlen
      simp only [List.set_cons_succ, List.count_cons]
      have := ih i hlen h
      omega

theorem count_false_set_false (l : List Bool) (i : Nat)
    (h : l.getD i false = true) :
    (l.set i false).count false = l.count false + 1 := by
  induction l generalizing i with
  | nil => simp [List.getD] at h
  | cons b rest ih =>
    cases i with
    | zero =>
      simp only [List.getD_cons_zero] at h
      subst h
      simp [List.count_cons]
    | succ i =>
      simp only [List.getD_cons_succ] at h
      simp only [List.set_cons_succ, List.count_cons]
      have := ih i h
      omega

theorem findClear_some {l : List Bool} {n i : Nat} (h : findClear l n = some i) :
    n ≤ i ∧ i - n < l.length ∧ l.getD (i - n) false = false := by
  induction l generalizing n with
  | nil => simp [findClear] at h
  | cons b rest ih =>
    by_cases hb : b = false
    · subst hb
      simp [findClear] at h
      subst h
      simp
    · have hb' : b = true := by
        cases b
        · exact absurd rfl hb
        · rfl
      subst hb'
      simp [findClear] at h
      obtain ⟨h1, h2, h3⟩ := ih h
      refine ⟨by omega, ?_, ?_⟩
      · simp only [List.length_cons]
        omega
      · have : i - n = (i - (n + 1)) + 1 := by omega
        rw [this]
        simpa using h3

set_option maxRecDepth 10000 in
/-- Claim C7 (counterexample): for a freshly created slab — reachable
by the empty operation sequence — the bitmap is all-clear while every
object is free, so the number of SET bits (0) does not equal the
free-object counter (256): a set bit does not mean "slot free". -/
theorem slab_fresh_set_bits_ne_free :
    SlabReach (Slab.fresh 8 0) ∧
    (Slab.fresh 8 0).bitmap.count true ≠ (Slab.fresh 8 0).free_objs :=
  ⟨SlabReach.fresh 8 0, by decide⟩

/-- Claim C7 (amended): the bitmap polarity is the reverse of the
claim's — `Slab::alloc` SETS the bit of the slot it hands out and
`Slab::dealloc` CLEARS it, so a set bit means "slot allocated".  For
every slab state reachable by `Slab::alloc` operations and by
`Slab::dealloc` of currently-allocated slots, the bitmap covers
exactly the `OBJS_PER_SLAB` slots and the number of CLEAR bits equals
the free-object counter `free_objs`. -/
theorem slab_clear_bits_eq_free {s : Slab} (h : SlabReach s) :
    s.bitmap.length = OBJS_PER_SLAB ∧ s.bitmap.count false = s.free_objs := by
  induction h with
  | fresh object_size data => simp [Slab.fresh]
  | alloc h ih =>
    obtain ⟨hlen, hcount⟩ := ih
    rename_i s
    by_cases hf : s.free_objs = 0
    · simp only [Slab.alloc, hf, if_pos rfl]
      exact ⟨hlen, hcount⟩
    · rcases hfc : findClear s.bitmap 0 with _ | i
      · simp only [Slab.alloc, if_neg hf, hfc]
        exact ⟨hlen, hcount⟩
      · obtain ⟨-, hi, hbit⟩ := findClear_some hfc
        have hi' : i < s.bitmap.length := by omega
        have hbit' : s.bitmap.getD i false = false := by simpa using hbit
        simp only [Slab.alloc, if_neg hf, hfc]
        refine ⟨by simpa using hlen, ?_⟩
        show (s.bitmap.set i true).count false = s.free_objs - 1
        have := count_false_set_true s.bitmap i hi' hbit'
        omega
  | dealloc ptr h hlt hset ih =>
    obtain ⟨hlen, hcount⟩ := ih
    rename_i s
    constructor
    · simpa [Slab.dealloc] using hlen
    · have := count_false_set_false s.bitmap ((ptr - s.data) / s.object_size) hset
      simp only [Slab.dealloc]
      omega

/-- Witness for C7's amended claim: the invariant evaluated after one
allocation from a fresh slab. -/
theorem slab_clear_bits_eq_free_witness :
    ((Slab.fresh 8 0).alloc).2.bitmap.length = OBJS_PER_SLAB ∧
    ((Slab.fresh 8 0).alloc).2.bitmap.count false = ((Slab.fresh 8 0).alloc).2.free_objs :=
  slab_clear_bits_eq_free (SlabReach.alloc (SlabReach.fresh 8 0))

/-! ### First-fit characterisation of `Pmm::alloc` (C2) -/

/-- Bits `i, …, i+k-1` all lie in the bitmap and are all set (free):
a run of `k` consecutive free frames starting at frame `i`. -/
def isRunAt (bits : List Bool) (k i : Nat) : Prop :=
  i + k ≤ bits.length ∧ ∀ j, j < k → bits.getD (i + j) false = true

theorem getD_set_ne (l : List Bool) {i j : Nat} (a : Bool) (h : i ≠ j) :
    (l.set i a).getD j false = l.getD j false := by
  simp [List.getD_eq_getElem?_getD, List.getElem?_set_ne h]

theorem getD_set_self (l : List Bool) (i : Nat) (a : Bool) (h : i < l.length) :
    (l.set i a).getD i false = a := by
  simp [List.getD_eq_getElem?_getD, List.getElem?_set_eq_of_lt a h]

theorem clearRange_zero (bits : List Bool) (p : Nat) : Pmm.clearRange bits p 0 = bits := rfl

theorem clearRange_succ (bits : List Bool) (p k : Nat) :
    Pmm.clearRange bits p (k + 1) = (Pmm.clearRange bits p k).set (p + k) false := by
  simp [Pmm.clearRange, List.range_succ]

theorem clearRange_length (bits : List Bool) (p k : Nat) :
    (Pmm.clearRange bits p k).length = bits.length := by
  induction k with
  | zero => rfl
  | succ k ih => rw [clearRange_succ]; simp [ih]

theorem clearRange_getD (bits : List Bool) (p k m : Nat) :
    (Pmm.clearRange bits p k).getD m false =
      if p ≤ m ∧ m < p + k then false else bits.getD m false := by
  induction k with
  | zero =>
    rw [clearRange_zero, if_neg (by omega)]
  | succ k ih =>
    rw [clearRange_succ]
    by_cases hm : m = p + k
    · subst hm
      by_cases hlen : p + k < (Pmm.clearRange bits p k).length
      · rw [getD_set_self _ _ _ hlen, if_pos (by omega)]
      · rw [clearRange_length] at hlen
        rw [List.set_eq_of_length_le (by rw [clearRange_length]; omega), ih,
          if_neg (by omega), if_pos (by omega),
          List.getD_eq_getElem?_getD, List.getElem?_eq_none (by omega)]
        rfl
    · rw [getD_set_ne _ _ (fun h => hm h.symm), ih]
      by_cases h2 : p ≤ m ∧ m < p + k
      · rw [if_pos h2, if_pos (by omega)]
      · rw [if_neg h2, if_neg (by omega)]

theorem allocLoop_spec (bits : List Bool) (k : Nat) (hk : 1 ≤ k) :
    ∀ fuel i count, fuel + i = bits.length → count ≤ i → count < k →
      (∀ j, j < count → bits.getD (i - count + j) false = true) →
      (count = i ∨ (count + 1 ≤ i ∧ bits.getD (i - count - 1) false = false)) →
      (∀ s, s + k ≤ i → ¬ isRunAt bits k s) →
      (∀ a bits', Pmm.allocLoop bits k fuel i count = some (a, bits') →
        ∃ s, isRunAt bits k s ∧ (∀ t, t < s → ¬ isRunAt bits k t) ∧
          a = s * PAGE_SIZE ∧ bits' = Pmm.clearRange bits s k) ∧
      (Pmm.allocLoop bits k fuel i count = none → ∀ s, ¬ isRunAt bits k s) := by
  intro fuel
  induction fuel with
  | zero =>
    intro i count hfi hci hck hrun hmax hno
    refine ⟨fun a bits' heq => by simp [Pmm.allocLoop] at heq, fun _ s hr => ?_⟩
    exact hno s (by have := hr.1; omega) hr
  | succ fuel ih =>
    intro i count hfi hci hck hrun hmax hno
    have hilt : i < bits.length := by omega
    unfold Pmm.allocLoop
    by_cases hb : bits.getD i false = true
    · rw [if_pos hb]
      by_cases hc : count + 1 = k
      · rw [if_pos hc]
        constructor
        · intro a bits' heq
          simp only [Option.some.injEq, Prod.mk.injEq] at heq
          obtain ⟨ha, hbits'⟩ := heq
          refine ⟨i + 1 - k, ⟨by omega, ?_⟩, ?_, ha.symm, hbits'.symm⟩
          · intro j hj
            by_cases hjk : j = k - 1
            · rw [show i + 1 - k + j = i from by omega]
              exact hb
            · have := hrun j (by omega)
              rw [show i - count + j = i + 1 - k + j from by omega] at this
              exact this
          · intro t ht hr
            exact hno t (by omega) hr
        · intro heq
          simp at heq
      · rw [if_neg hc]
        apply ih (i + 1) (count + 1) (by omega) (by omega) (by omega)
        · intro j hj
          rw [show i + 1 - (count + 1) + j = i - count + j from by omega]
          rcases Nat.lt_succ_iff_lt_or_eq.mp hj with hj' | hj'
          · exact hrun j hj'
          · rw [hj', show i - count + count = i from by omega]
            exact hb
        · rcases hmax with hm | ⟨hm1, hm2⟩
          · exact Or.inl (by omega)
          · refine Or.inr ⟨by omega, ?_⟩
            rw [show i + 1 - (count + 1) - 1 = i - count - 1 from by omega]
            exact hm2
        · intro s hs hr
          by_cases hsi : s + k ≤ i
          · exact hno s hsi hr
          · obtain ⟨hrl, hra⟩ := hr
            rcases hmax with hm | ⟨hm1, hm2⟩
            · omega
            · have hd1 : s ≤ i - count - 1 := by omega
              have := hra (i - count - 1 - s) (by omega)
              rw [show s + (i - count - 1 - s) = i - count - 1 from by omega] at this
              rw [this] at hm2
              exact Bool.noConfusion hm2
    · rw [if_neg hb]
      have hbf : bits.getD i false = false := by
        cases hx : bits.getD i false
        · rfl
        · exact absurd hx hb
      apply ih (i + 1) 0 (by omega) (by omega) (by omega)
      · intro j hj
        omega
      · refine Or.inr ⟨by omega, ?_⟩
        rw [show i + 1 - 0 - 1 = i from by omega]
        exact hbf
      · intro s hs hr
        by_cases hsi : s + k ≤ i
        · exact hno s hsi hr
        · obtain ⟨hrl, hra⟩ := hr
          have := hra (k - 1) (by omega)
          rw [show s + (k - 1) = i from by omega, hbf] at this
          exact Bool.noConfusion this

/-- Claim C2: for every bitmap state and every `frame_count ≥ 1`,
`Pmm::alloc` returns the base address (`index * PAGE_SIZE`) of the
first — lowest-index in the ascending scan — run of `frame_count`
consecutive free (set) bits, clearing exactly those bits and no
others; when no such run exists it returns `None` (and, the model
being purely functional over total, in-bounds bitmap operations, it
touches nothing and cannot panic: every scanned or cleared index is
below the bitmap's bit length). -/
theorem pmm_alloc_first_fit (bits : List Bool) (k : Nat) (hk : 1 ≤ k) :
    (∀ a bits', Pmm.alloc bits k = some (a, bits') →
      ∃ i, isRunAt bits k i ∧ (∀ t, t < i → ¬ isRunAt bits k t) ∧ a = i * PAGE_SIZE ∧
        bits'.length = bits.length ∧
        ∀ m, bits'.getD m false =
          if i ≤ m ∧ m < i + k then false else bits.getD m false) ∧
    (Pmm.alloc bits k = none → ∀ i, ¬ isRunAt bits k i) := by
  have H := allocLoop_spec bits k hk bits.length 0 0 (by omega) (by omega) (by omega)
    (fun j hj => absurd hj (by omega)) (Or.inl rfl)
    (fun s hs => absurd hs (by omega))
  constructor
  · intro a bits' heq
    obtain ⟨s, hrun, hmin, ha, hbits'⟩ := H.1 a bits' heq
    refine ⟨s, hrun, hmin, ha, ?_, ?_⟩
    · rw [hbits', clearRange_length]
    · intro m
      rw [hbits', clearRange_getD]
  · exact H.2

/-- Witness for C2: on the bitmap `[free, used, free, free, used]`
a two-frame request returns `8192` — the base of the first two-frame
run, at bit 2 — and clears exactly bits 2 and 3. -/
theorem pmm_alloc_first_fit_witness :
    ∃ i, isRunAt [true, false, true, true, false] 2 i ∧
      (∀ t, t < i → ¬ isRunAt [true, false, true, true, false] 2 t) ∧
      (8192 : Nat) = i * PAGE_SIZE ∧
      ([true, false, false, false, false] : List Bool).length =
        ([true, false, true, true, false] : List Bool).length ∧
      ∀ m, ([true, false, false, false, false] : List Bool).getD m false =
        if i ≤ m ∧ m < i + 2 then false
        else ([true, false, true, true, false] : List Bool).getD m false :=
  (pmm_alloc_first_fit [true, false, true, true, false] 2 (by decide)).1 8192
    [true, false, false, false, false] rfl

/-! ### `Pmm::calloc` zero-fill (C8) -/

theorem allocLoop_addr_le (bits : List Bool) (pages : Nat) :
    ∀ fuel i count a bits', Pmm.allocLoop bits pages fuel i count = some (a, bits') →
      a ≤ (i + fuel) * PAGE_SIZE := by
  intro fuel
  induction fuel with
  | zero =>
    intro i count a bits' h
    simp [Pmm.allocLoop] at h
  | succ fuel ih =>
    intro i count a bits' h
    unfold Pmm.allocLoop at h
    by_cases hb : bits.getD i false = true
    · rw [if_pos hb] at h
      by_cases hc : count + 1 = pages
      · rw [if_pos hc] at h
        simp only [Option.some.injEq, Prod.mk.injEq] at h
        have := h.1
        subst this
        have : i + 1 - pages ≤ i + (fuel + 1) := by omega
        exact Nat.mul_le_mul_right PAGE_SIZE this
      · rw [if_neg hc] at h
        have := ih (i + 1) (count + 1) a bits' h
        calc a ≤ (i + 1 + fuel) * PAGE_SIZE := this
          _ = (i + (fuel + 1)) * PAGE_SIZE := by ring
    · rw [if_neg hb] at h
      have := ih (i + 1) 0 a bits' h
      calc a ≤ (i + 1 + fuel) * PAGE_SIZE := this
        _ = (i + (fuel + 1)) * PAGE_SIZE := by ring

/-- Claim C8 (amended): whenever `Pmm::calloc(k)` succeeds it returns
exactly the address `Pmm::alloc(k)` returns (with the same bitmap
outcome), and before returning zero-fills all `k * 4096` bytes of the
returned frames, so every byte of a returned frame reads as zero —
but the fill pointer is the raw physical address (the boot identity
mapping), not the kernel-mapped higher-half alias.  The hypothesis
bounds the bitmap to addresses below `PHYS_BASE`, which holds for any
physically realisable memory map. -/
theorem calloc_alloc_addr_zeroed (s : Pmm.State) (k a : Nat) (s' : Pmm.State)
    (hmem : s.bits.length * PAGE_SIZE < PHYS_BASE)
    (h : Pmm.calloc s k = some (a, s')) :
    Pmm.alloc s.bits k = some (a, s'.bits) ∧
    ∀ off, off < k * PAGE_SIZE → s'.bytes (a + off) = 0 := by
  unfold Pmm.calloc at h
  cases halloc : Pmm.alloc s.bits k with
  | none =>
    rw [halloc] at h
    exact absurd h (by simp)
  | some p =>
    obtain ⟨a0, bits'⟩ := p
    rw [halloc] at h
    simp only [Option.some.injEq, Prod.mk.injEq] at h
    obtain ⟨ha, hs'⟩ := h
    subst ha
    subst hs'
    have hbound : a0 ≤ (0 + s.bits.length) * PAGE_SIZE :=
      allocLoop_addr_le s.bits k s.bits.length 0 0 a0 bits' halloc
    rw [Nat.zero_add] at hbound
    have halt : a0 < PHYS_BASE := by omega
    have hv : virtToPhys (Pmm.callocPtr a0) = a0 := by
      unfold virtToPhys Pmm.callocPtr
      rw [if_neg (by omega)]
    refine ⟨rfl, ?_⟩
    intro off hoff
    show Pmm.writeBytes s.bytes (Pmm.callocPtr a0) (k * PAGE_SIZE) 0 (a0 + off) = 0
    unfold Pmm.writeBytes
    rw [hv, if_pos ⟨by omega, by omega⟩]

/-- Witness for C8's amended claim: the first `calloc(1)` on the fresh
machine returns frame 0 — the address `alloc(1)` returns — with bytes
0-4095 reading zero. -/
theorem calloc_alloc_addr_zeroed_witness :
    ∃ s', Pmm.calloc initMachine.pmm 1 = some (0, s') ∧
      (Pmm.alloc initMachine.pmm.bits 1 = some (0, s'.bits) ∧
       ∀ off, off < 1 * PAGE_SIZE → s'.bytes (0 + off) = 0) :=
  ⟨_, rfl, calloc_alloc_addr_zeroed initMachine.pmm 1 0 _ (by decide) rfl⟩

/-! ### Page-table walk lemmas (C3, C4) -/

theorem and_lor_right (a b c : Nat) : (a ||| b) &&& c = (a &&& c) ||| (b &&& c) := by
  apply Nat.eq_of_testBit_eq
  intro i
  simp [Nat.testBit_lor, Nat.testBit_land, Bool.and_or_distrib_right]

theorem setChild_entries (t : PTable) (i : Nat) (c : PTable) (j : Nat) :
    (t.setChild i c).entries j = t.entries j := by
  cases t
  rfl

theorem setChild_children_self (t : PTable) (i : Nat) (c : PTable) :
    (t.setChild i c).children i = some c := by
  cases t
  simp [PTable.setChild, PTable.children]

theorem lor_seven_and_one_ne_zero (x : Nat) : (x ||| 7) &&& 1 ≠ 0 := by
  intro h
  have h7 : ((7 : Nat).testBit 0) = true := by decide
  have ht : ((x ||| 7) &&& 1).testBit 0 = true := by
    simp [Nat.testBit_land, Nat.testBit_lor, h7]
  rw [h] at ht
  simp at ht

theorem setChild_setChild (t : PTable) (i : Nat) (a b : PTable) :
    (t.setChild i a).setChild i b = t.setChild i b := by
  cases t
  simp [PTable.setChild, PTable.children, PTable.entries, Function.update_idem]

theorem setChild_self (t : PTable) (i : Nat) (c : PTable)
    (h : t.children i = some c) : t.setChild i c = t := by
  cases t with
  | mk e ch =>
    simp only [PTable.children] at h
    simp only [PTable.setChild, PTable.children, PTable.entries]
    rw [← h, Function.update_eq_self]

theorem setEntry_entries_self (t : PTable) (i v : Nat) :
    (t.setEntry i v).entries i = v := by
  cases t
  simp [PTable.setEntry, PTable.entries]

/-- After a successful `get_next_level`, the (possibly just written)
entry at `index` is present and points at the returned child. -/
theorem get_next_level_present {p : Pmm.State} {t : PTable} {index : Nat}
    {p' : Pmm.State} {t' c : PTable}
    (h : get_next_level p t index = some (p', t', c)) :
    t'.entries index &&& 1 ≠ 0 ∧ t'.children index = some c := by
  unfold get_next_level at h
  by_cases hp : t.entries index &&& 1 = 0
  · rw [if_pos hp] at h
    cases hc : Pmm.calloc p 1 with
    | none => rw [hc] at h; simp at h
    | some q =>
      obtain ⟨entry, p''⟩ := q
      rw [hc] at h
      simp only [Option.some.injEq, Prod.mk.injEq] at h
      obtain ⟨-, ht', hc'⟩ := h
      subst ht'
      subst hc'
      constructor
      · rw [setChild_entries]
        rw [setEntry_entries_self]
        rw [show (PageFlags.PRESENT ||| PageFlags.WRITABLE ||| PageFlags.USERMODE : Nat) = 7 from by decide]
        exact lor_seven_and_one_ne_zero entry
      · exact setChild_children_self ..
  · rw [if_neg hp] at h
    cases hc : t.children index with
    | none => rw [hc] at h; simp at h
    | some c0 =>
      rw [hc] at h
      simp only [Option.some.injEq, Prod.mk.injEq] at h
      obtain ⟨-, ht', hc'⟩ := h
      subst ht'
      subst hc'
      exact ⟨hp, hc⟩

/-- When the entry at `index` is present and has a recorded child,
`get_next_level` takes its read-only branch. -/
theorem get_next_level_read {t : PTable} {index : Nat} {c : PTable}
    (h1 : t.entries index &&& 1 ≠ 0) (h2 : t.children index = some c)
    (p : Pmm.State) : get_next_level p t index = some (p, t, c) := by
  unfold get_next_level
  rw [if_neg h1, h2]

/-- A fully present walk: `get_mapping` returns the leaf entry and the
machine unchanged. -/
theorem get_mapping_of_present (m : Machine) (V : Nat) {pdp pd pt : PTable}
    (h1e : m.root.entries (VirtAddr.pml4 V) &&& 1 ≠ 0)
    (h1c : m.root.children (VirtAddr.pml4 V) = some pdp)
    (h2e : pdp.entries (VirtAddr.pdp V) &&& 1 ≠ 0)
    (h2c : pdp.children (VirtAddr.pdp V) = some pd)
    (h3e : pd.entries (VirtAddr.pd V) &&& 1 ≠ 0)
    (h3c : pd.children (VirtAddr.pd V) = some pt) :
    get_mapping m V = some (pt.entries (VirtAddr.pt V), m) := by
  have g1 := get_next_level_read h1e h1c m.pmm
  have g2 := get_next_level_read h2e h2c m.pmm
  have g3 := get_next_level_read h3e h3c m.pmm
  simp only [get_mapping, g1, g2, g3]
  rw [setChild_self pd _ pt h3c, setChild_self pdp _ pd h2c, setChild_self m.root _ pdp h1c]

/-- Claim C3: for every machine state, after a successful
`map_page(V, P, flags)` with `P` page-aligned inside bits 12-51
(`remove_flags P = P`) and `flags` drawn from the defined flag bits
(present bit 0, writable bit 1, user bit 2, write-through bit 3,
uncacheable bit 4, lazily-backed bit 9, no-execute bit 63),
`get_mapping(V)` returns the raw leaf `P ||| flags` without further
state change; masking the leaf with the physical-address mask yields
exactly `P`, and masking with the defined flag bits yields exactly
`flags`. -/
theorem map_page_get_mapping_roundtrip (m m' : Machine) (V P flags : Nat)
    (hP : removeFlags P = P)
    (hF : flags &&& PageFlags.definedMask = flags)
    (h : map_page m V P flags = some m') :
    get_mapping m' V = some (P ||| flags, m') ∧
    removeFlags (P ||| flags) = P ∧
    (P ||| flags) &&& PageFlags.definedMask = flags := by
  have hdisj : (PageFlags.definedMask &&& 0x000ffffffffff000 : Nat) = 0 := by decide
  have hFphys : flags &&& 0x000ffffffffff000 = 0 := by
    rw [← hF, Nat.land_assoc, hdisj]
    simp
  have hPflags : P &&& PageFlags.definedMask = 0 := by
    rw [← hP]
    unfold removeFlags
    rw [Nat.land_assoc]
    rw [show (0x000ffffffffff000 &&& PageFlags.definedMask : Nat) = 0 from by decide]
    simp
  refine ⟨?_, ?_, ?_⟩
  · unfold map_page at h
    cases g1 : get_next_level m.pmm m.root (VirtAddr.pml4 V) with
    | none => simp [g1] at h
    | some r1 =>
      obtain ⟨p1, root', pdp⟩ := r1
      simp only [g1] at h
      cases g2 : get_next_level p1 pdp (VirtAddr.pdp V) with
      | none => simp [g2] at h
      | some r2 =>
        obtain ⟨p2, pdp', pd⟩ := r2
        simp only [g2] at h
        cases g3 : get_next_level p2 pd (VirtAddr.pd V) with
        | none => simp [g3] at h
        | some r3 =>
          obtain ⟨p3, pd', page_table⟩ := r3
          simp only [g3, Option.some.injEq] at h
          subst h
          have e1 := get_next_level_present g1
          have e2 := get_next_level_present g2
          have e3 := get_next_level_present g3
          have hgm := @get_mapping_of_present
            ⟨p3, root'.setChild (VirtAddr.pml4 V)
              ((pdp'.setChild (VirtAddr.pdp V)
                ((pd'.setChild (VirtAddr.pd V)
                  (page_table.setEntry (VirtAddr.pt V) (P ||| flags))))))⟩ V
            (pdp'.setChild (VirtAddr.pdp V)
              ((pd'.setChild (VirtAddr.pd V)
                (page_table.setEntry (VirtAddr.pt V) (P ||| flags)))))
            (pd'.setChild (VirtAddr.pd V)
              (page_table.setEntry (VirtAddr.pt V) (P ||| flags)))
            (page_table.setEntry (VirtAddr.pt V) (P ||| flags))
            (by show (root'.setChild ..).entries .. &&& 1 ≠ 0
                rw [setChild_entries]
                exact e1.1)
            (setChild_children_self ..)
            (by rw [setChild_entries]; exact e2.1)
            (setChild_children_self ..)
            (by rw [setChild_entries]; exact e3.1)
            (setChild_children_self ..)
          rw [hgm, setEntry_entries_self]
  · unfold removeFlags
    rw [and_lor_right, hFphys]
    unfold removeFlags at hP
    rw [hP]
    simp
  · rw [and_lor_right, hPflags, hF]
    simp

/-- Witness for C3: on the fresh machine, map `V = 0x1000` to
`P = 0x5000` with `PRESENT|WRITABLE`; the walk allocates intermediate
tables, and reading back yields exactly `0x5000 ||| 3`. -/
theorem map_page_get_mapping_roundtrip_witness :
    ∃ m', map_page initMachine 0x1000 0x5000 3 = some m' ∧
      (get_mapping m' 0x1000 = some (0x5000 ||| 3, m') ∧
       removeFlags (0x5000 ||| 3) = 0x5000 ∧
       (0x5000 ||| 3) &&& PageFlags.definedMask = 3) :=
  ⟨_, rfl, map_page_get_mapping_roundtrip initMachine _ 0x1000 0x5000 3
    (by decide) (by decide) rfl⟩

/-- Claim C4 (amended): `get_mapping` returns the raw leaf entry
value, and when every intermediate level on the address's path is
already present it is read-only — the machine state (page tables and
PMM bitmap) comes back unchanged.  (When a level is absent it instead
allocates intermediate tables, per the counterexample.) -/
theorem get_mapping_readonly_when_present (m : Machine) (V : Nat)
    (h : WalkPresent m V) :
    ∃ e, leafEntry m V = some e ∧ get_mapping m V = some (e, m) := by
  obtain ⟨pdp, pd, pt, h1e, h1c, h2e, h2c, h3e, h3c⟩ := h
  refine ⟨pt.entries (VirtAddr.pt V), ?_, ?_⟩
  · simp only [leafEntry, h1c, h2c, h3c]
  · exact get_mapping_of_present m V h1e h1c h2e h2c h3e h3c

/-- Witness for C4's amended claim: on a machine whose tables for
`0x1000` are all present, `get_mapping` returns the leaf and the
unchanged machine. -/
theorem get_mapping_readonly_when_present_witness :
    ∃ e, leafEntry presentMachine 0x1000 = some e ∧
      get_mapping presentMachine 0x1000 = some (e, presentMachine) :=
  get_mapping_readonly_when_present presentMachine 0x1000
    ⟨_, _, _, by decide, rfl, by decide, rfl, by decide, rfl⟩

/-! ### Private file-backed fault path (C5) -/

theorem get_range_bounds {ranges : List VirtMemoryRange} {a : Nat} {r : VirtMemoryRange}
    (h : get_range ranges a = some r) : r.start < a ∧ a < r.stop := by
  induction ranges with
  | nil => simp [get_range] at h
  | cons e rest ih =>
    unfold get_range at h
    by_cases hc : e.start < a ∧ a < e.stop
    · rw [if_pos hc] at h
      cases h
      exact hc
    · rw [if_neg hc] at h
      exact ih h

/-- Claim C5: whenever the page-fault handler resolves a fault at
`cr2` against a private, non-anonymous, file-backed, page-aligned
range, it issues exactly one `vfs::read` of `cnt` bytes at file offset
`i * PAGE_SIZE + range.offset`, where `i = (cr2 - base) / PAGE_SIZE`
is the faulting page's index within the range and `cnt` is `PAGE_SIZE`
unless `(i+1) * PAGE_SIZE` exceeds the range length — i.e. unless the
page is the final, partial page — in which case it is
`length % PAGE_SIZE`. -/
theorem private_fault_single_read
    (s : Vmm) (cr2 e : Nat) (m1 : Machine) (r : VirtMemoryRange)
    (page : Nat) (p2 : Pmm.State) (f : Nat) (m2 : Machine)
    (hmap : get_mapping s.mach cr2 = some (e, m1))
    (hmm : e &&& PageFlags.MMAPED ≠ 0)
    (hr : get_range s.ranges cr2 = some r)
    (hanon : r.is_anon_map = false)
    (hpriv : r.is_private_map = true)
    (hcal : Pmm.calloc m1.pmm 1 = some (page, p2))
    (hfd : r.fd = some f)
    (hmp : map_page ⟨p2, m1.root⟩ cr2 (lowerHalf (higherHalf page))
      (pageFlagsFromMapProt r.prot) = some m2)
    (halign : r.base % PAGE_SIZE = 0) :
    page_fault s cr2 =
      .privMapped
        (if ((cr2 - r.base) / PAGE_SIZE + 1) * PAGE_SIZE ≤ r.length then PAGE_SIZE
          else r.length % PAGE_SIZE)
        ((cr2 - r.base) / PAGE_SIZE * PAGE_SIZE + r.offset)
        ⟨m2, s.ranges⟩ := by
  have hb := get_range_bounds hr
  have hdiv : cr2 / PAGE_SIZE - r.start / PAGE_SIZE = (cr2 - r.base) / PAGE_SIZE := by
    obtain ⟨q, hq⟩ : PAGE_SIZE ∣ r.base := Nat.dvd_of_mod_eq_zero halign
    unfold VirtMemoryRange.start
    rw [hq, Nat.mul_div_cancel_left q (by decide : 0 < PAGE_SIZE),
      Nat.sub_mul_div cr2 PAGE_SIZE q (by unfold VirtMemoryRange.start at hb; omega)]
  simp only [page_fault, hmap]
  rw [if_pos hmm]
  simp only [hr]
  rw [hanon]
  simp only [Bool.false_eq_true, if_false]
  rw [hpriv, if_pos rfl]
  simp only [hcal, hfd, hmp]
  rw [hdiv]

/-- Witness for C5: on the two-page private range at `0x1000` with
file offset 1024, a fault in the second page (`cr2 = 0x2000`) issues
exactly one read of 4096 bytes at file offset `1024 + 4096 = 5120`. -/
theorem private_fault_single_read_witness :
    privVmm = some privVmmS ∧
    ∃ s', page_fault privVmmS 0x2000 = .privMapped 4096 5120 s' :=
  ⟨rfl, _, private_fault_single_read privVmmS 0x2000 _ _ _ _ _ 7 _
    rfl (by decide) rfl (by decide) (by decide) rfl rfl rfl (by decide)⟩

end Griffin
